import Mathlib

/-!
Verification development for the Life-Tracker server's habit/prayer
tracking core: date canonicalization, toggle semantics, daily, monthly and
streak aggregations, the duplicate-entry cleanup pass and streak milestones.

Time is modelled as integer Unix milliseconds (no leap seconds, as in
JavaScript Date).  A process running with a fixed UTC offset of
off milliseconds turns an instant t into local wall-clock fields by reading
the calendar fields of t + off; consequently:

- the habits route helper normalizeDate (new Date(date) followed by
  setHours(0,0,0,0)) yields the local-midnight instant of the local
  calendar date of the input, i.e. fdiv (t + off) msPerDay * msPerDay - off;
- the prayers route / cleanup script helper normalizeDate
  (Date.UTC(getUTCFullYear, getUTCMonth, getUTCDate)) yields the
  UTC-midnight instant of the UTC calendar date, i.e.
  fdiv t msPerDay * msPerDay.

Aggregation loops that step one calendar day at a time are modelled with a
step of msPerDay (fixed-offset model, no DST transitions), and the monthly
aggregation is additionally stated at day granularity (one unit = one day).
Fractional arithmetic (completedCount / total * 100 and Math.round) is
modelled exactly over the rationals; the JavaScript float computation
agrees with the exact rational one for all realistic trackable counts.
-/

/-- Milliseconds in one calendar day of Unix time. -/
def msPerDay : Int := 86400000

/-- UTC calendar day number of an instant (floor division of Unix ms). -/
def utcCalendarDay (t : Int) : Int := t.fdiv msPerDay

/-- Embedding of the habits route helper normalizeDate (src/unnamed/part_003
lines 22-26): new Date(date); d.setHours(0,0,0,0).  It zeroes the LOCAL
time-of-day fields, so the result depends on the UTC offset off (in ms) of
the evaluating process: it is the local-midnight instant of the local
calendar date of t. -/
def habitsNormalizeDate (off t : Int) : Int :=
  (t + off).fdiv msPerDay * msPerDay - off

/-- Embedding of the prayers route helper normalizeDate (src/routes/prayers.js
lines 20-24) and of the cleanup script helper (src/unnamed/part_000 lines
23-26): new Date(Date.UTC(d.getUTCFullYear(), d.getUTCMonth(),
d.getUTCDate(), 0, 0, 0, 0)), the UTC-midnight instant of the UTC calendar
date of t.  It takes no offset: the process time zone is never consulted. -/
def prayersNormalizeDate (t : Int) : Int :=
  t.fdiv msPerDay * msPerDay

/-- The prayers-route canonicalization depends only on the UTC calendar
date: two instants with the same UTC calendar day canonicalize to
bit-identical output. -/
theorem prayersNormalizeDate_eq_of_sameUTCDay (t1 t2 : Int)
    (h : utcCalendarDay t1 = utcCalendarDay t2) :
    prayersNormalizeDate t1 = prayersNormalizeDate t2 := by
  unfold prayersNormalizeDate
  unfold utcCalendarDay at h
  rw [h]

/-- With zero offset the two helpers agree. -/
theorem habitsNormalizeDate_zero_off (t : Int) :
    habitsNormalizeDate 0 t = prayersNormalizeDate t := by
  simp [habitsNormalizeDate, prayersNormalizeDate]

/-! ## Completion records and the toggle engine -/

/-- Embedding of a HabitEntry document (src/unnamed/part_002): userId,
habitId, a date instant, a completed flag, plus the Mongo document id and
the createdAt timestamp added by the timestamps option. -/
structure HabitEntry where
  id : Nat
  userId : Nat
  habitId : Nat
  date : Int
  completed : Bool
  createdAt : Int
deriving DecidableEq

/-- Embedding of a PrayerEntry document (src/models/PrayerEntry.js). -/
structure PrayerEntry where
  id : Nat
  userId : Nat
  prayerType : String
  date : Int
  prayed : Bool
  createdAt : Int
deriving DecidableEq

/-- The five prayer slots (src/models/PrayerEntry.js line 3). -/
def PRAYER_TYPES : List String := ["fajr", "zuhr", "asr", "maghrib", "isha"]

/-- Key predicate of the habit toggle lookup: userId, habitId and exact
stored date (src/unnamed/part_003 lines 206-210). -/
def hKey (u h : Nat) (d : Int) (e : HabitEntry) : Bool :=
  e.userId == u && e.habitId == h && e.date == d

/-- Key predicate of the prayer toggle lookup (src/routes/prayers.js lines
80-84). -/
def pKey (u : Nat) (pt : String) (d : Int) (e : PrayerEntry) : Bool :=
  e.userId == u && e.date == d && e.prayerType == pt

/-- Embedding of HabitEntry.findOne on the toggle key. -/
def findHabitEntry (s : List HabitEntry) (u h : Nat) (d : Int) : Option HabitEntry :=
  s.find? (hKey u h d)

/-- Embedding of PrayerEntry.findOne on the toggle key. -/
def findPrayerEntry (s : List PrayerEntry) (u : Nat) (pt : String) (d : Int) :
    Option PrayerEntry :=
  s.find? (pKey u pt d)

/-- Embedding of Model.findByIdAndDelete: remove the first (in Mongo the
unique) document whose id matches. -/
def removeById {α : Type} (idOf : α → Nat) : List α → Nat → List α
  | [], _ => []
  | e :: rest, i => if idOf e == i then rest else e :: removeById idOf rest i

/-- Embedding of the prayer toggle's existing.prayed = true; existing.save():
update the document with the given id in place. -/
def setPrayedById (s : List PrayerEntry) (i : Nat) : List PrayerEntry :=
  s.map (fun e => if e.id == i then { e with prayed := true } else e)

/-- Embedding of POST /api/habits/entries/toggle (src/unnamed/part_003 lines
205-225), applied to the already-normalized day d: if an entry exists on
the key, delete it and answer completed = false; otherwise create an entry
with completed = true (fid is the fresh document id, now the createdAt
stamp) and answer completed = true. -/
def toggleHabit (s : List HabitEntry) (fid : Nat) (now : Int) (u h : Nat)
    (d : Int) : Bool × List HabitEntry :=
  match findHabitEntry s u h d with
  | some e => (false, removeById HabitEntry.id s e.id)
  | none => (true, ⟨fid, u, h, d, true, now⟩ :: s)

/-- Embedding of POST /api/prayers/toggle (src/routes/prayers.js lines
86-103), applied to the already-normalized day d: existing prayed entry is
deleted (answer false); existing unprayed entry is flipped to prayed
(answer true); missing entry is created with prayed = true (answer true). -/
def togglePrayer (s : List PrayerEntry) (fid : Nat) (now : Int) (u : Nat)
    (pt : String) (d : Int) : Bool × List PrayerEntry :=
  match findPrayerEntry s u pt d with
  | some e =>
    if e.prayed then (false, removeById PrayerEntry.id s e.id)
    else (true, setPrayedById s e.id)
  | none => (true, ⟨fid, u, pt, d, true, now⟩ :: s)

/-- The habits route toggles on the locally-normalized posted date. -/
def routeToggleHabit (off : Int) (s : List HabitEntry) (fid : Nat) (now : Int)
    (u h : Nat) (rawDate : Int) : Bool × List HabitEntry :=
  toggleHabit s fid now u h (habitsNormalizeDate off rawDate)

/-- The prayers route toggles on the UTC-normalized posted date. -/
def routeTogglePrayer (s : List PrayerEntry) (fid : Nat) (now : Int) (u : Nat)
    (pt : String) (rawDate : Int) : Bool × List PrayerEntry :=
  togglePrayer s fid now u pt (prayersNormalizeDate rawDate)

/-- Store invariant enforced by the unique index of src/unnamed/part_002
lines 13-14: at most one habit entry per (userId, habitId, date). -/
def habitUnique (s : List HabitEntry) : Prop :=
  ∀ u h d, s.countP (hKey u h d) ≤ 1

/-- Store invariant enforced by the unique index of
src/models/PrayerEntry.js lines 15-16. -/
def prayerUnique (s : List PrayerEntry) : Prop :=
  ∀ u pt d, s.countP (pKey u pt d) ≤ 1

/-- Mongo guarantees distinct document ids. -/
def habitIdsNodup (s : List HabitEntry) : Prop := (s.map HabitEntry.id).Nodup

/-- Mongo guarantees distinct document ids. -/
def prayerIdsNodup (s : List PrayerEntry) : Prop := (s.map PrayerEntry.id).Nodup

/-- Effective habit completion state of a key: the aggregations only test
record presence (entryMap.has in src/unnamed/part_003 line 282). -/
def habitCompletedOn (s : List HabitEntry) (u h : Nat) (d : Int) : Bool :=
  (findHabitEntry s u h d).isSome

/-- Effective prayer state of a key: the reads only count records with
prayed = true (the prayed: true query filter in src/routes/prayers.js). -/
def prayerPrayedOn (s : List PrayerEntry) (u : Nat) (pt : String) (d : Int) : Bool :=
  s.any (fun e => pKey u pt d e && e.prayed)

/-! ## Daily statistics -/

/-- Embedding of JavaScript Math.round on the exact rational value:
Math.round x = floor (x + 1/2) for the nonnegative values that arise here. -/
def jsRound (x : ℚ) : Int := ⌊x + 1 / 2⌋

/-- One element of the days array answered by GET /stats/daily. -/
structure DayStat where
  date : Int
  completedCount : Nat
  total : Nat
  percentage : Int
  isSuccessDay : Bool
deriving DecidableEq

/-- Embedding of the per-day completed counter of GET /api/habits/stats/daily
(src/unnamed/part_003 lines 280-285): the number of active habits having an
entry whose normalized date equals the day. -/
def habitCompletedCount (off : Int) (habits : List Nat) (entries : List HabitEntry)
    (d : Int) : Nat :=
  habits.countP (fun h =>
    entries.any (fun e => e.habitId == h && habitsNormalizeDate off e.date == d))

/-- Embedding of one day of GET /api/habits/stats/daily (src/unnamed/part_003
lines 275-298). -/
def habitDayStat (off : Int) (habits : List Nat) (entries : List HabitEntry)
    (d : Int) : DayStat :=
  let c := habitCompletedCount off habits entries d
  let t := habits.length
  let pct := jsRound ((c : ℚ) / (t : ℚ) * 100)
  ⟨d, c, t, pct, decide (75 ≤ pct)⟩

/-- Embedding of getDatesBetween (src/unnamed/part_003 lines 29-37): all
instants from startDate to endDate inclusive, stepping one day at a time. -/
def datesBetween (s e : Int) : List Int :=
  (List.range (((e - s).fdiv msPerDay) + 1).toNat).map
    (fun i : Nat => s + msPerDay * (i : Int))

/-- Embedding of GET /api/habits/stats/daily: empty when no active habit
exists, else one DayStat per date of the inclusive range. -/
def habitDailyStats (off : Int) (habits : List Nat) (entries : List HabitEntry)
    (startD endD : Int) : List DayStat :=
  if habits.length = 0 then []
  else (datesBetween startD endD).map
    (fun d => habitDayStat off habits entries (habitsNormalizeDate off d))

/-- Distinct prayer slots recorded as prayed on a day (the per-date Set of
GET /api/prayers/stats/daily, src/routes/prayers.js lines 133-140; the
query already filters prayed: true). -/
def prayersOnDay (entries : List PrayerEntry) (d : Int) : List String :=
  ((entries.filter (fun e => e.prayed && prayersNormalizeDate e.date == d)).map
    PrayerEntry.prayerType).dedup

/-- Embedding of one day of GET /api/prayers/stats/daily (src/routes/prayers.js
lines 143-160): total is the fixed 5, success means all five prayed. -/
def prayerDayStat (entries : List PrayerEntry) (d : Int) : DayStat :=
  let c := (prayersOnDay entries d).length
  ⟨d, c, 5, jsRound ((c : ℚ) / 5 * 100), decide (c = 5)⟩

/-- Embedding of GET /api/prayers/stats/daily over the inclusive range. -/
def prayerDailyStats (entries : List PrayerEntry) (startD endD : Int) : List DayStat :=
  (datesBetween startD endD).map (fun d => prayerDayStat entries (prayersNormalizeDate d))

/-- Distinct habit ids having an entry on a day: the per-date Set built by
GET /stats/monthly (src/unnamed/part_003 lines 347-354) and GET
/stats/streak (lines 406-413).  Unlike the daily endpoint this counts every
entry's habitId, not only active habits. -/
def habitDistinctOnDay (off : Int) (entries : List HabitEntry) (d : Int) : List Nat :=
  ((entries.filter (fun e => habitsNormalizeDate off e.date == d)).map
    HabitEntry.habitId).dedup

/-! ## Streak engine -/

/-- Embedding of the streak scan loop body (src/unnamed/part_003 lines
427-447 and src/routes/prayers.js lines 201-220): arguments are the
remaining window (today first), tempStreak, longestStreak, streakBroken and
currentStreak; at the end longestStreak is lifted by the trailing temp run
(lines 449-451). -/
def streakGo : List Bool → Nat → Nat → Bool → Nat → Nat × Nat
  | [], tmp, lng, _, cur => (cur, max lng tmp)
  | b :: rest, tmp, lng, broken, cur =>
    if b then streakGo rest (tmp + 1) lng broken (if broken then cur else cur + 1)
    else streakGo rest 0 (max lng tmp) true cur

/-- Streak result (currentStreak, longestStreak) on a success window. -/
def streaksOf (l : List Bool) : Nat × Nat := streakGo l 0 0 false 0

/-- The scanned window: day index i (0 = today, walking backward) for
exactly 400 iterations. -/
def streakWindow (daySucc : Nat → Bool) : List Bool := (List.range 400).map daySucc

/-- Embedding of GET /stats/streak given the per-day success predicate. -/
def streaks (daySucc : Nat → Bool) : Nat × Nat := streaksOf (streakWindow daySucc)

/-- Per-day aggregate habit success used by GET /stats/streak and
/stats/monthly: completed/total*100 at least 75, stated exactly over the
integers (75 * total <= 100 * completed). -/
def habitDaySuccess (off : Int) (entries : List HabitEntry) (totalHabits : Nat)
    (d : Int) : Bool :=
  decide (75 * totalHabits ≤ 100 * (habitDistinctOnDay off entries d).length)

/-- Per-day prayer success used by GET /stats/streak: all five slots prayed. -/
def prayerDaySuccess (entries : List PrayerEntry) (d : Int) : Bool :=
  decide ((prayersOnDay entries d).length = 5)

/-- Reference functional specification of the longest run: mrGo l tmp is
the maximal count of consecutive true values when a run of length tmp
immediately precedes l. -/
def mrGo : List Bool → Nat → Nat
  | [], tmp => tmp
  | true :: rest, tmp => mrGo rest (tmp + 1)
  | false :: rest, tmp => max tmp (mrGo rest 0)

/-- Reference longest run of consecutive true values anywhere in the list. -/
def maxRun (l : List Bool) : Nat := mrGo l 0

/-- The list contains n consecutive true values somewhere. -/
def HasTrueRun (l : List Bool) (n : Nat) : Prop :=
  ∃ i, (l.drop i).take n = List.replicate n true

/-! ## Monthly statistics -/

/-- One element of the months array answered by GET /stats/monthly. -/
structure MonthStat where
  successDays : Nat
  totalDays : Nat
  percentage : Int
deriving DecidableEq

/-- Inclusive day range at day granularity (one unit = one calendar day):
the getDatesBetween walk of the monthly endpoints. -/
def daysBetween (s e : Int) : List Int :=
  (List.range ((e - s) + 1).toNat).map (fun i : Nat => s + (i : Int))

/-- Embedding of one month of GET /stats/monthly (src/unnamed/part_003 lines
326-375, src/routes/prayers.js lines 250-296) at day granularity: startD
and endD are the first and last day of the month, today the current day;
endD is clipped to today, a month starting after today is answered as
all-zero, and percentage is the rounded success ratio, 0 when no day was
counted. -/
def monthlyStat (daySucc : Int → Bool) (startD endD today : Int) : MonthStat :=
  let effEnd := if endD > today then today else endD
  if startD > today then ⟨0, 0, 0⟩
  else
    let dates := daysBetween startD effEnd
    let successDays := dates.countP daySucc
    let totalDays := dates.length
    ⟨successDays, totalDays,
      if 0 < totalDays then jsRound ((successDays : ℚ) / (totalDays : ℚ) * 100) else 0⟩

/-! ## Duplicate-entry cleanup (src/unnamed/part_000) -/

/-- Grouping key of the cleanup pass: userId, habitId and the
UTC-normalized date (src/unnamed/part_000 lines 37-45). -/
def habitCleanKey (e : HabitEntry) : Nat × Nat × Int :=
  (e.userId, e.habitId, prayersNormalizeDate e.date)

/-- Keys in first-occurrence order, as produced by iterating a JavaScript
Map in insertion order. -/
def dedupKeysFirst : List (Nat × Nat × Int) → List (Nat × Nat × Int)
  | [] => []
  | k :: rest => k :: (dedupKeysFirst rest).filter (fun k2 => k2 != k)

/-- Members of one duplicate group, drawn from the loaded snapshot. -/
def habitGroup (snap : List HabitEntry) (k : Nat × Nat × Int) : List HabitEntry :=
  snap.filter (fun e => habitCleanKey e == k)

/-- The entry kept by the cleanup: the stable descending sort by createdAt
keeps the first-encountered entry of maximal createdAt
(src/unnamed/part_000 lines 57-63). -/
def pickNewestH : List HabitEntry → HabitEntry → HabitEntry
  | [], best => best
  | e :: rest, best => pickNewestH rest (if best.createdAt < e.createdAt then e else best)

/-- Sequential findByIdAndDelete over a list of ids; F is the set of ids
whose deletion fails with a storage error.  On failure the error carries
the store as left by the deletions already performed, since the exception
aborts the loop (src/unnamed/part_000 lines 68-72 have no error handling). -/
def deleteManyByIds (F : List Nat) : List HabitEntry → List Nat →
    Except (List HabitEntry) (Nat × List HabitEntry)
  | s, [] => .ok (0, s)
  | s, i :: rest =>
    if i ∈ F then .error s
    else
      match deleteManyByIds F (removeById HabitEntry.id s i) rest with
      | .ok (n, s2) => .ok (n + 1, s2)
      | .error s2 => .error s2

/-- Ids the cleanup deletes for one group: every member except the kept
newest one (src/unnamed/part_000 lines 63-64). -/
def groupDeleteIds (snap : List HabitEntry) (k : Nat × Nat × Int) : List Nat :=
  match habitGroup snap k with
  | [] => []
  | e0 :: erest =>
    (removeById HabitEntry.id (e0 :: erest) (pickNewestH erest e0).id).map HabitEntry.id

/-- Group-by-group cleanup walk (src/unnamed/part_000 lines 51-74): ks are
the remaining group keys, snap the snapshot the groups were computed from,
s the live store, g and n the duplicate-group and deleted counters.  A
deletion failure propagates immediately: no surrounding try/catch exists,
so the remaining groups are never processed. -/
def cleanupGroups (F : List Nat) : List (Nat × Nat × Int) → List HabitEntry →
    List HabitEntry → Nat → Nat → Except (List HabitEntry) (Nat × Nat × List HabitEntry)
  | [], _, s, g, n => .ok (g, n, s)
  | k :: ks, snap, s, g, n =>
    if (habitGroup snap k).length ≤ 1 then cleanupGroups F ks snap s g n
    else
      match deleteManyByIds F s (groupDeleteIds snap k) with
      | .ok (dn, s2) => cleanupGroups F ks snap s2 (g + 1) (n + dn)
      | .error s2 => .error s2

/-- Embedding of cleanupHabitEntries (src/unnamed/part_000 lines 28-81):
load all entries, group by (userId, habitId, normalized date), keep the
newest member of each group of more than one, delete the rest; answers the
summary (duplicate groups, deleted entries) together with the final store,
or the error state if a deletion failed. -/
def cleanupHabitEntries (F : List Nat) (entries : List HabitEntry) :
    Except (List HabitEntry) (Nat × Nat × List HabitEntry) :=
  cleanupGroups F (dedupKeysFirst (entries.map habitCleanKey)) entries entries 0 0

/-- Store left behind by a cleanup run, whether it completed or aborted. -/
def cleanupStore (r : Except (List HabitEntry) (Nat × Nat × List HabitEntry)) :
    List HabitEntry :=
  match r with
  | .error s => s
  | .ok (_, _, s) => s

/-! ## Streak milestones -/

/-- Allowed milestone thresholds of PUT /api/habits/streaks/:milestone
(src/unnamed/part_003 line 568). -/
def validMilestones : List Nat := [30, 50, 75, 100, 150, 200, 250, 300, 365]

/-- Embedding of a Streak document (src/models/Streak.js). -/
structure StreakRec where
  id : Nat
  userId : Nat
  milestone : Nat
  achievedAt : Int
  reward : String
  notes : String
deriving DecidableEq

/-- Key predicate of the milestone unique index (src/models/Streak.js lines
14-15). -/
def sKey (u m : Nat) (e : StreakRec) : Bool := e.userId == u && e.milestone == m

/-- Embedding of Streak.findOneAndUpdate with upsert: update every payload
field of the first matching document, or insert a fresh document when none
matches. -/
def upsertStreak : List StreakRec → Nat → Nat → Nat → Int → String → String →
    List StreakRec
  | [], fid, u, m, ach, r, n => [⟨fid, u, m, ach, r, n⟩]
  | e :: rest, fid, u, m, ach, r, n =>
    if sKey u m e then { e with achievedAt := ach, reward := r, notes := n } :: rest
    else e :: upsertStreak rest fid u m ach r n

/-- Embedding of PUT /api/habits/streaks/:milestone (src/unnamed/part_003
lines 566-584): a milestone outside the allowed set is rejected with the
Invalid milestone message and nothing is written; otherwise the record is
upserted. -/
def putMilestone (s : List StreakRec) (fid u m : Nat) (ach : Int) (r n : String) :
    Option String × List StreakRec :=
  if m ∈ validMilestones then (none, upsertStreak s fid u m ach r n)
  else (some "Invalid milestone", s)

/-- Milestone store invariant from the unique index. -/
def streakUnique (s : List StreakRec) : Prop := ∀ u m, s.countP (sKey u m) ≤ 1

/-! ### Base lemmas about removeById and find? -/

theorem removeById_sublist {α : Type} (idOf : α → Nat) :
    ∀ (s : List α) (i : Nat), List.Sublist (removeById idOf s i) s := by
  intro s i
  induction s with
  | nil => simp [removeById]
  | cons e rest ih =>
    by_cases h : idOf e == i
    · simp only [removeById, h, if_pos]
      exact List.sublist_cons_self e rest
    · simp only [removeById, h, if_neg, Bool.false_eq_true, not_false_eq_true]
      exact List.Sublist.cons₂ e ih

theorem find?_removeById_none {α : Type} (idOf : α → Nat) (p : α → Bool) :
    ∀ (s : List α) (e : α), (s.map idOf).Nodup → s.countP p ≤ 1 →
      s.find? p = some e → (removeById idOf s (idOf e)).find? p = none := by
  intro s
  induction s with
  | nil => intro e _ _ hf; simp at hf
  | cons x t ih =>
    intro e hnd hcount hf
    by_cases hx : p x
    · have hex : e = x := by
        rw [List.find?_cons_of_pos _ hx] at hf
        exact (Option.some_inj.mp hf).symm
      subst hex
      have hrw : removeById idOf (e :: t) (idOf e) = t := by
        simp [removeById]
      rw [hrw]
      have hc : t.countP p = 0 := by
        rw [List.countP_cons, if_pos hx] at hcount
        omega
      rw [List.find?_eq_none]
      intro y hy hpy
      have := (List.countP_eq_zero.mp hc) y hy
      exact this hpy
    · rw [List.find?_cons_of_neg _ hx] at hf
      have hmem : e ∈ t := List.mem_of_find?_eq_some hf
      have hne : (idOf x == idOf e) = false := by
        have hx_notin : idOf x ∉ t.map idOf := (List.nodup_cons.mp hnd).1
        have : idOf e ∈ t.map idOf := List.mem_map_of_mem idOf hmem
        by_contra hcontra
        simp only [Bool.not_eq_false, beq_iff_eq] at hcontra
        exact hx_notin (hcontra ▸ this)
      have hrw : removeById idOf (x :: t) (idOf e) = x :: removeById idOf t (idOf e) := by
        simp [removeById, hne]
      rw [hrw, List.find?_cons_of_neg _ hx]
      have hcount' : t.countP p ≤ 1 := by
        rw [List.countP_cons] at hcount
        omega
      exact ih e (List.nodup_cons.mp hnd).2 hcount' hf

theorem find?_map_pres {α : Type} (f : α → α) (p : α → Bool)
    (hp : ∀ x, p (f x) = p x) :
    ∀ (s : List α) (e : α), s.find? p = some e → (s.map f).find? p = some (f e) := by
  intro s
  induction s with
  | nil => intro e hf; simp at hf
  | cons x t ih =>
    intro e hf
    by_cases hx : p x
    · rw [List.find?_cons_of_pos _ hx] at hf
      injection hf with hxe
      subst hxe
      rw [List.map_cons, List.find?_cons_of_pos _ (by rw [hp]; exact hx)]
    · rw [List.find?_cons_of_neg _ hx] at hf
      rw [List.map_cons, List.find?_cons_of_neg _ (by rw [hp]; exact hx)]
      exact ih e hf

theorem countP_map_pres {α : Type} (f : α → α) (p : α → Bool)
    (hp : ∀ x, p (f x) = p x) (s : List α) : (s.map f).countP p = s.countP p := by
  induction s with
  | nil => simp
  | cons x t ih => simp [List.countP_cons, hp, ih]

theorem eq_of_countP_le_one {α : Type} (p : α → Bool) (s : List α)
    (h1 : s.countP p ≤ 1) (e : α) (he : e ∈ s) (hpe : p e = true) :
    ∀ x ∈ s, p x = true → x = e := by
  intro x hx hpx
  rw [List.countP_eq_length_filter] at h1
  have hef : e ∈ s.filter p := List.mem_filter.mpr ⟨he, hpe⟩
  have hxf : x ∈ s.filter p := List.mem_filter.mpr ⟨hx, hpx⟩
  cases hl : s.filter p with
  | nil => rw [hl] at hef; simp at hef
  | cons y ys =>
    cases ys with
    | nil =>
      rw [hl] at hef hxf
      simp only [List.mem_singleton] at hef hxf
      rw [hef, hxf]
    | cons z zs => rw [hl] at h1; simp at h1

/-! ## Claim C1 -/

/-- C1: the claim states that the date-canonicalization used by every
operation is UTC-based and offset-independent.  The habits route helper is
not: evaluated by a process at UTC offset +01:00 (3600000 ms), the two
instants 1970-01-01T00:00:00.000Z and 1970-01-01T23:59:59.999Z share the
UTC calendar date but canonicalize to two distinct non-UTC-midnight
instants, and the result further changes with the process offset; the
prayers route helper does map both to the UTC midnight instant 0.  This
contradicts the cleanup script's own documentation (src/unnamed/part_000
lines 1-26), which calls the local-time normalizeDate the bug and the UTC
version the fixed one, so the habits route code is the slip. -/
theorem C1_habits_canonicalization_is_local_not_utc :
    utcCalendarDay 0 = utcCalendarDay 86399999 ∧
    habitsNormalizeDate 3600000 0 = -3600000 ∧
    habitsNormalizeDate 3600000 86399999 = 82800000 ∧
    habitsNormalizeDate 3600000 0 ≠ habitsNormalizeDate 3600000 86399999 ∧
    habitsNormalizeDate 0 0 ≠ habitsNormalizeDate 3600000 0 ∧
    prayersNormalizeDate 0 = 0 ∧ prayersNormalizeDate 86399999 = 0 := by
  refine ⟨?_, ?_, ?_, ?_, ?_, ?_, ?_⟩ <;> decide

/-! ## Claim C2 -/

/-- C2: the four-way toggle case analysis.  On a key with no record, both
toggles create a record with the completion flag set and answer true; on an
existing habit record the toggle deletes it and answers false; on an
existing prayer record with prayed = false it flips the flag to true and
answers true; on an existing prayer record with prayed = true it deletes it
and answers false.  The deletion cases assume the unique index and distinct
document ids that Mongo enforces. -/
theorem C2_toggle_case_analysis (hs : List HabitEntry) (ps : List PrayerEntry)
    (fid : Nat) (now : Int) (u h : Nat) (pt : String) (d : Int) :
    (findHabitEntry hs u h d = none →
      toggleHabit hs fid now u h d = (true, ⟨fid, u, h, d, true, now⟩ :: hs)) ∧
    (findPrayerEntry ps u pt d = none →
      togglePrayer ps fid now u pt d = (true, ⟨fid, u, pt, d, true, now⟩ :: ps)) ∧
    (∀ e, findHabitEntry hs u h d = some e → habitIdsNodup hs → habitUnique hs →
      (toggleHabit hs fid now u h d).1 = false ∧
      findHabitEntry (toggleHabit hs fid now u h d).2 u h d = none) ∧
    (∀ e, findPrayerEntry ps u pt d = some e → e.prayed = false →
      (togglePrayer ps fid now u pt d).1 = true ∧
      findPrayerEntry (togglePrayer ps fid now u pt d).2 u pt d =
        some { e with prayed := true }) ∧
    (∀ e, findPrayerEntry ps u pt d = some e → e.prayed = true →
      prayerIdsNodup ps → prayerUnique ps →
      (togglePrayer ps fid now u pt d).1 = false ∧
      findPrayerEntry (togglePrayer ps fid now u pt d).2 u pt d = none) := by
  refine ⟨?_, ?_, ?_, ?_, ?_⟩
  · intro hf; simp [toggleHabit, hf]
  · intro hf; simp [togglePrayer, hf]
  · intro e hf hnd hu
    constructor
    · simp [toggleHabit, hf]
    · simp only [toggleHabit, hf]
      exact find?_removeById_none HabitEntry.id (hKey u h d) hs e hnd (hu u h d) hf
  · intro e hf hpr
    constructor
    · simp [togglePrayer, hf, hpr]
    · simp only [togglePrayer, hf, hpr]
      have hmap := find?_map_pres
        (fun x => if x.id == e.id then { x with prayed := true } else x)
        (pKey u pt d) (fun x => by by_cases hc : x.id == e.id <;> simp [hc, pKey])
        ps e hf
      simp only [findPrayerEntry, setPrayedById]
      simpa using hmap
  · intro e hf hpr hnd hu
    constructor
    · simp [togglePrayer, hf, hpr]
    · simp only [togglePrayer, hf, hpr]
      exact find?_removeById_none PrayerEntry.id (pKey u pt d) ps e hnd (hu u pt d) hf

/-- Witness for C2 at concrete inputs: an empty habit store gains a
completed entry, and a prayer record with prayed = false is flipped. -/
theorem C2_toggle_case_analysis_witness :
    toggleHabit [] 7 5 1 2 0 = (true, [⟨7, 1, 2, 0, true, 5⟩]) ∧
    (togglePrayer [⟨3, 1, "fajr", 0, false, 9⟩] 7 5 1 "fajr" 0).1 = true := by
  have h := C2_toggle_case_analysis ([] : List HabitEntry)
    [⟨3, 1, "fajr", 0, false, 9⟩] 7 5 1 2 "fajr" 0
  exact ⟨h.1 (by decide),
    (h.2.2.2.1 ⟨3, 1, "fajr", 0, false, 9⟩ (by decide) (by decide)).1⟩

/-! ## Claim C8 -/

theorem habit_toggle_twice_eff (hs : List HabitEntry) (fid1 fid2 : Nat)
    (now1 now2 : Int) (u h : Nat) (d : Int)
    (hnd : habitIdsNodup hs) (hu : habitUnique hs) :
    habitCompletedOn (toggleHabit (toggleHabit hs fid1 now1 u h d).2 fid2 now2 u h d).2 u h d
      = habitCompletedOn hs u h d := by
  cases hf : findHabitEntry hs u h d with
  | none =>
    have h1 : (toggleHabit hs fid1 now1 u h d).2 = ⟨fid1, u, h, d, true, now1⟩ :: hs := by
      simp [toggleHabit, hf]
    rw [h1]
    have hkey : hKey u h d ⟨fid1, u, h, d, true, now1⟩ = true := by simp [hKey]
    have h2 : findHabitEntry (⟨fid1, u, h, d, true, now1⟩ :: hs) u h d
        = some ⟨fid1, u, h, d, true, now1⟩ := by
      simp [findHabitEntry, List.find?_cons_of_pos _ hkey]
    have h3 : (toggleHabit (⟨fid1, u, h, d, true, now1⟩ :: hs) fid2 now2 u h d).2 = hs := by
      simp [toggleHabit, h2, removeById]
    rw [h3]
  | some e =>
    have h1 : (toggleHabit hs fid1 now1 u h d).2 = removeById HabitEntry.id hs e.id := by
      simp [toggleHabit, hf]
    rw [h1]
    have h2 : findHabitEntry (removeById HabitEntry.id hs e.id) u h d = none :=
      find?_removeById_none HabitEntry.id (hKey u h d) hs e hnd (hu u h d) hf
    have h3 : (toggleHabit (removeById HabitEntry.id hs e.id) fid2 now2 u h d).2
        = ⟨fid2, u, h, d, true, now2⟩ :: removeById HabitEntry.id hs e.id := by
      simp [toggleHabit, h2]
    rw [h3]
    have hkey : hKey u h d ⟨fid2, u, h, d, true, now2⟩ = true := by simp [hKey]
    have h4 : findHabitEntry (⟨fid2, u, h, d, true, now2⟩ :: removeById HabitEntry.id hs e.id)
        u h d = some ⟨fid2, u, h, d, true, now2⟩ := by
      simp [findHabitEntry, List.find?_cons_of_pos _ hkey]
    rw [habitCompletedOn, habitCompletedOn, h4, hf]
    rfl

theorem prayer_toggle_twice_eff (ps : List PrayerEntry) (fid1 fid2 : Nat)
    (now1 now2 : Int) (u : Nat) (pt : String) (d : Int)
    (hnd : prayerIdsNodup ps) (hu : prayerUnique ps) :
    prayerPrayedOn (togglePrayer (togglePrayer ps fid1 now1 u pt d).2 fid2 now2 u pt d).2 u pt d
      = prayerPrayedOn ps u pt d := by
  cases hf : findPrayerEntry ps u pt d with
  | none =>
    have h1 : (togglePrayer ps fid1 now1 u pt d).2 = ⟨fid1, u, pt, d, true, now1⟩ :: ps := by
      simp [togglePrayer, hf]
    rw [h1]
    have hkey : pKey u pt d ⟨fid1, u, pt, d, true, now1⟩ = true := by simp [pKey]
    have h2 : findPrayerEntry (⟨fid1, u, pt, d, true, now1⟩ :: ps) u pt d
        = some ⟨fid1, u, pt, d, true, now1⟩ := by
      simp [findPrayerEntry, List.find?_cons_of_pos _ hkey]
    have h3 : (togglePrayer (⟨fid1, u, pt, d, true, now1⟩ :: ps) fid2 now2 u pt d).2 = ps := by
      simp [togglePrayer, h2, removeById]
    rw [h3]
  | some e =>
    have hmem : e ∈ ps := List.mem_of_find?_eq_some hf
    have hpe : pKey u pt d e = true := List.find?_some hf
    by_cases hp : e.prayed
    · have h1 : (togglePrayer ps fid1 now1 u pt d).2 = removeById PrayerEntry.id ps e.id := by
        simp [togglePrayer, hf, hp]
      rw [h1]
      have h2 : findPrayerEntry (removeById PrayerEntry.id ps e.id) u pt d = none :=
        find?_removeById_none PrayerEntry.id (pKey u pt d) ps e hnd (hu u pt d) hf
      have h3 : (togglePrayer (removeById PrayerEntry.id ps e.id) fid2 now2 u pt d).2
          = ⟨fid2, u, pt, d, true, now2⟩ :: removeById PrayerEntry.id ps e.id := by
        simp [togglePrayer, h2]
      rw [h3]
      have hL : prayerPrayedOn
          (⟨fid2, u, pt, d, true, now2⟩ :: removeById PrayerEntry.id ps e.id) u pt d = true := by
        rw [prayerPrayedOn]
        apply List.any_eq_true.mpr
        exact ⟨⟨fid2, u, pt, d, true, now2⟩, List.mem_cons_self _ _, by simp [pKey]⟩
      have hR : prayerPrayedOn ps u pt d = true := by
        rw [prayerPrayedOn]
        apply List.any_eq_true.mpr
        exact ⟨e, hmem, by rw [hpe, hp]; rfl⟩
      rw [hL, hR]
    · have h1 : (togglePrayer ps fid1 now1 u pt d).2 = setPrayedById ps e.id := by
        rw [togglePrayer, hf]
        simp only [if_neg hp]
      rw [h1]
      have hpres : ∀ x, pKey u pt d (if x.id == e.id then { x with prayed := true } else x)
          = pKey u pt d x := by
        intro x
        by_cases hc : x.id == e.id <;> simp [hc, pKey]
      have hfind1 : (setPrayedById ps e.id).find? (pKey u pt d)
          = some (if e.id == e.id then { e with prayed := true } else e) :=
        find?_map_pres _ (pKey u pt d) hpres ps e hf
      have hfe : (if e.id == e.id then { e with prayed := true } else e)
          = { e with prayed := true } := by simp
      rw [hfe] at hfind1
      have h2 : (togglePrayer (setPrayedById ps e.id) fid2 now2 u pt d).2
          = removeById PrayerEntry.id (setPrayedById ps e.id) e.id := by
        rw [togglePrayer]
        rw [show findPrayerEntry (setPrayedById ps e.id) u pt d = some { e with prayed := true }
          from hfind1]
        rfl
      rw [h2]
      have hnd1 : ((setPrayedById ps e.id).map PrayerEntry.id).Nodup := by
        have hmapeq : (setPrayedById ps e.id).map PrayerEntry.id = ps.map PrayerEntry.id := by
          rw [setPrayedById, List.map_map]
          apply List.map_congr_left
          intro x _
          by_cases hc : x.id = e.id <;> simp [hc]
        rw [hmapeq]
        exact hnd
      have hcnt1 : (setPrayedById ps e.id).countP (pKey u pt d) ≤ 1 := by
        rw [setPrayedById, countP_map_pres _ _ hpres]
        exact hu u pt d
      have h3 : (removeById PrayerEntry.id (setPrayedById ps e.id)
          (PrayerEntry.id { e with prayed := true })).find? (pKey u pt d) = none :=
        find?_removeById_none PrayerEntry.id (pKey u pt d) (setPrayedById ps e.id)
          { e with prayed := true } hnd1 hcnt1 hfind1
      have hid : PrayerEntry.id { e with prayed := true } = e.id := rfl
      rw [hid] at h3
      have hall := List.find?_eq_none.mp h3
      have hL : prayerPrayedOn (removeById PrayerEntry.id (setPrayedById ps e.id) e.id)
          u pt d = false := by
        rw [prayerPrayedOn, List.any_eq_false]
        intro x hx
        have hpk := hall x hx
        simp only [Bool.and_eq_true, not_and]
        intro hcontra
        exact absurd hcontra hpk
      have hR : prayerPrayedOn ps u pt d = false := by
        rw [prayerPrayedOn, List.any_eq_false]
        intro x hx
        simp only [Bool.and_eq_true, not_and]
        intro hpk
        have hxe := eq_of_countP_le_one (pKey u pt d) ps (hu u pt d) e hmem hpe x hx hpk
        rw [hxe]
        exact hp
      rw [hL, hR]

/-- C8 counterexample: the claim says toggle twice returns the store to its
original state for the key, for ANY starting state.  Starting from a prayer
record with prayed = false, the first toggle flips it to prayed and the
second deletes it, so the store ends empty rather than holding the original
record. -/
theorem C8_store_roundtrip_counterexample :
    (togglePrayer (togglePrayer [⟨3, 1, "fajr", 0, false, 9⟩] 7 5 1 "fajr" 0).2
        8 6 1 "fajr" 0).2 = [] ∧
    ([] : List PrayerEntry) ≠ [⟨3, 1, "fajr", 0, false, 9⟩] ∧
    findPrayerEntry [⟨3, 1, "fajr", 0, false, 9⟩] 1 "fajr" 0
      = some ⟨3, 1, "fajr", 0, false, 9⟩ := by
  refine ⟨?_, ?_, ?_⟩ <;> decide

/-- C8 amended: calling toggle twice on the same key restores the EFFECTIVE
completion state of that key - record presence for habits, presence of a
prayed = true record for prayers - under the unique index and distinct
document ids Mongo enforces.  The literal store record is not always
restored: a recreated record has a fresh id, and a prayer record that
started with prayed = false is deleted outright by the second toggle. -/
theorem C8_toggle_twice_effective_roundtrip (hs : List HabitEntry)
    (ps : List PrayerEntry) (fid1 fid2 : Nat) (now1 now2 : Int) (u h : Nat)
    (pt : String) (d : Int)
    (hhn : habitIdsNodup hs) (hhu : habitUnique hs)
    (hpn : prayerIdsNodup ps) (hpu : prayerUnique ps) :
    habitCompletedOn (toggleHabit (toggleHabit hs fid1 now1 u h d).2 fid2 now2 u h d).2 u h d
      = habitCompletedOn hs u h d ∧
    prayerPrayedOn (togglePrayer (togglePrayer ps fid1 now1 u pt d).2 fid2 now2 u pt d).2 u pt d
      = prayerPrayedOn ps u pt d :=
  ⟨habit_toggle_twice_eff hs fid1 fid2 now1 now2 u h d hhn hhu,
   prayer_toggle_twice_eff ps fid1 fid2 now1 now2 u pt d hpn hpu⟩

/-- Witness for the amended C8 at concrete stores. -/
theorem C8_toggle_twice_effective_roundtrip_witness :
    habitCompletedOn (toggleHabit (toggleHabit [⟨1, 1, 2, 0, true, 0⟩] 7 5 1 2 0).2
        8 6 1 2 0).2 1 2 0 = habitCompletedOn [⟨1, 1, 2, 0, true, 0⟩] 1 2 0 ∧
    prayerPrayedOn (togglePrayer (togglePrayer [⟨3, 1, "fajr", 0, false, 9⟩] 7 5
        1 "fajr" 0).2 8 6 1 "fajr" 0).2 1 "fajr" 0
      = prayerPrayedOn [⟨3, 1, "fajr", 0, false, 9⟩] 1 "fajr" 0 :=
  C8_toggle_twice_effective_roundtrip [⟨1, 1, 2, 0, true, 0⟩]
    [⟨3, 1, "fajr", 0, false, 9⟩] 7 8 5 6 1 2 "fajr" 0
    (by unfold habitIdsNodup; decide)
    (fun u h d => (List.countP_le_length _).trans (by simp))
    (by unfold prayerIdsNodup; decide)
    (fun u pt d => (List.countP_le_length _).trans (by simp))

/-! ## Claim C5 -/

/-- Store left behind by a run of sequential deletions. -/
def storeOfDel (r : Except (List HabitEntry) (Nat × List HabitEntry)) :
    List HabitEntry :=
  match r with
  | .error s => s
  | .ok (_, s) => s

theorem deleteManyByIds_sublist (F : List Nat) :
    ∀ (ids : List Nat) (s : List HabitEntry),
      List.Sublist (storeOfDel (deleteManyByIds F s ids)) s := by
  intro ids
  induction ids with
  | nil => intro s; exact List.Sublist.refl s
  | cons i rest ih =>
    intro s
    simp only [deleteManyByIds]
    by_cases hF : i ∈ F
    · rw [if_pos hF]; exact List.Sublist.refl s
    · rw [if_neg hF]
      have h1 := ih (removeById HabitEntry.id s i)
      have h2 := removeById_sublist HabitEntry.id s i
      cases hr : deleteManyByIds F (removeById HabitEntry.id s i) rest with
      | ok pr =>
        obtain ⟨n, s2⟩ := pr
        rw [hr] at h1
        exact List.Sublist.trans h1 h2
      | error s2 =>
        rw [hr] at h1
        exact List.Sublist.trans h1 h2

theorem cleanupGroups_sublist (F : List Nat) :
    ∀ (ks : List (Nat × Nat × Int)) (snap s : List HabitEntry) (g n : Nat),
      List.Sublist (cleanupStore (cleanupGroups F ks snap s g n)) s := by
  intro ks
  induction ks with
  | nil => intro snap s g n; exact List.Sublist.refl s
  | cons k ks ih =>
    intro snap s g n
    simp only [cleanupGroups]
    by_cases hlen : (habitGroup snap k).length ≤ 1
    · rw [if_pos hlen]; exact ih snap s g n
    · rw [if_neg hlen]
      have hdel := deleteManyByIds_sublist F (groupDeleteIds snap k) s
      cases hr : deleteManyByIds F s (groupDeleteIds snap k) with
      | ok pr =>
        obtain ⟨dn, s2⟩ := pr
        rw [hr] at hdel
        exact List.Sublist.trans (ih snap s2 (g + 1) (n + dn)) hdel
      | error s2 =>
        rw [hr] at hdel
        exact hdel

theorem habitUnique_toggle (s : List HabitEntry) (fid : Nat) (now : Int)
    (u h : Nat) (d : Int) (hu : habitUnique s) :
    habitUnique (toggleHabit s fid now u h d).2 := by
  cases hf : findHabitEntry s u h d with
  | some e =>
    intro u2 h2 d2
    simp only [toggleHabit, hf]
    exact le_trans ((removeById_sublist HabitEntry.id s e.id).countP_le _) (hu u2 h2 d2)
  | none =>
    intro u2 h2 d2
    simp only [toggleHabit, hf]
    rw [List.countP_cons]
    by_cases hk : hKey u2 h2 d2 ⟨fid, u, h, d, true, now⟩
    · have hkeq : (u = u2 ∧ h = h2) ∧ d = d2 := by
        simpa [hKey] using hk
      obtain ⟨⟨e1, e2⟩, e3⟩ := hkeq
      subst e1; subst e2; subst e3
      have h0 : s.countP (hKey u h d) = 0 := by
        rw [List.countP_eq_zero]
        intro a ha hpa
        exact (List.find?_eq_none.mp hf) a ha hpa
      rw [if_pos hk, h0]
    · rw [if_neg hk]
      simpa using hu u2 h2 d2

theorem prayerUnique_toggle (s : List PrayerEntry) (fid : Nat) (now : Int)
    (u : Nat) (pt : String) (d : Int) (hu : prayerUnique s) :
    prayerUnique (togglePrayer s fid now u pt d).2 := by
  cases hf : findPrayerEntry s u pt d with
  | some e =>
    by_cases hp : e.prayed
    · intro u2 pt2 d2
      simp only [togglePrayer, hf, if_pos hp]
      exact le_trans ((removeById_sublist PrayerEntry.id s e.id).countP_le _) (hu u2 pt2 d2)
    · intro u2 pt2 d2
      simp only [togglePrayer, hf, if_neg hp]
      rw [setPrayedById, countP_map_pres _ _ (fun x => by
        by_cases hc : x.id == e.id <;> simp [hc, pKey])]
      exact hu u2 pt2 d2
  | none =>
    intro u2 pt2 d2
    simp only [togglePrayer, hf]
    rw [List.countP_cons]
    by_cases hk : pKey u2 pt2 d2 ⟨fid, u, pt, d, true, now⟩
    · have hkeq : (u = u2 ∧ d = d2) ∧ pt = pt2 := by
        simpa [pKey] using hk
      obtain ⟨⟨e1, e2⟩, e3⟩ := hkeq
      subst e1; subst e2; subst e3
      have h0 : s.countP (pKey u pt d) = 0 := by
        rw [List.countP_eq_zero]
        intro a ha hpa
        exact (List.find?_eq_none.mp hf) a ha hpa
      rw [if_pos hk, h0]
    · rw [if_neg hk]
      simpa using hu u2 pt2 d2

theorem countP_upsert_other (fid u m : Nat) (ach : Int) (r n : String)
    (u2 m2 : Nat) (hne : ¬(u = u2 ∧ m = m2)) :
    ∀ (s : List StreakRec),
      (upsertStreak s fid u m ach r n).countP (sKey u2 m2) = s.countP (sKey u2 m2) := by
  intro s
  induction s with
  | nil =>
    simp only [upsertStreak, List.countP_cons]
    have : sKey u2 m2 ⟨fid, u, m, ach, r, n⟩ = false := by
      simp [sKey]
      intro hu2
      intro hcontra
      exact hne ⟨hu2, hcontra⟩
    simp [this, List.countP_nil]
  | cons e rest ih =>
    by_cases hk : sKey u m e
    · simp only [upsertStreak, if_pos hk]
      rw [List.countP_cons, List.countP_cons]
      have : sKey u2 m2 { e with achievedAt := ach, reward := r, notes := n }
          = sKey u2 m2 e := by simp [sKey]
      rw [this]
    · simp only [upsertStreak, if_neg hk]
      rw [List.countP_cons, List.countP_cons, ih]

theorem countP_upsert_self (fid u m : Nat) (ach : Int) (r n : String) :
    ∀ (s : List StreakRec), s.countP (sKey u m) ≤ 1 →
      (upsertStreak s fid u m ach r n).countP (sKey u m) = 1 := by
  intro s
  induction s with
  | nil =>
    intro _
    simp [upsertStreak, List.countP_cons, sKey]
  | cons e rest ih =>
    intro hle
    by_cases hk : sKey u m e
    · simp only [upsertStreak, if_pos hk]
      rw [List.countP_cons] at hle ⊢
      have : sKey u m { e with achievedAt := ach, reward := r, notes := n }
          = sKey u m e := by simp [sKey]
      rw [this, if_pos hk] at *
      omega
    · simp only [upsertStreak, if_neg hk]
      rw [List.countP_cons] at hle ⊢
      rw [if_neg hk] at hle ⊢
      have := ih (by omega)
      omega

theorem streakUnique_upsert (s : List StreakRec) (fid u m : Nat) (ach : Int)
    (r n : String) (hu : streakUnique s) :
    streakUnique (upsertStreak s fid u m ach r n) := by
  intro u2 m2
  by_cases heq : u = u2 ∧ m = m2
  · obtain ⟨h1, h2⟩ := heq
    subst h1; subst h2
    rw [countP_upsert_self fid u m ach r n s (hu u m)]
  · rw [countP_upsert_other fid u m ach r n u2 m2 heq s]
    exact hu u2 m2

/-- C5: every mutating operation preserves the one-record-per-key
invariant: toggles on either store, a cleanup run (whether it completes or
aborts on a failed deletion), and the milestone endpoint.  The aggregation
endpoints (dailyStats, monthlyStats, streaks) are pure reads in this
embedding - they take the store and return statistics, never a store - so
they cannot introduce duplicates. -/
theorem C5_unique_invariant_preserved (hs : List HabitEntry)
    (ps : List PrayerEntry) (es : List HabitEntry) (ss : List StreakRec)
    (F : List Nat) (fid fid2 u h u2 m : Nat) (now ach : Int) (pt : String)
    (d : Int) (r nt : String) :
    (habitUnique hs → habitUnique (toggleHabit hs fid now u h d).2) ∧
    (prayerUnique ps → prayerUnique (togglePrayer ps fid now u pt d).2) ∧
    (habitUnique es → habitUnique (cleanupStore (cleanupHabitEntries F es))) ∧
    (streakUnique ss → streakUnique (putMilestone ss fid2 u2 m ach r nt).2) := by
  refine ⟨?_, ?_, ?_, ?_⟩
  · intro hu; exact habitUnique_toggle hs fid now u h d hu
  · intro hu; exact prayerUnique_toggle ps fid now u pt d hu
  · intro hu u3 h3 d3
    exact le_trans
      ((cleanupGroups_sublist F (dedupKeysFirst (es.map habitCleanKey)) es es 0 0).countP_le _)
      (hu u3 h3 d3)
  · intro hu
    rw [putMilestone]
    by_cases hm : m ∈ validMilestones
    · rw [if_pos hm]
      exact streakUnique_upsert ss fid2 u2 m ach r nt hu
    · rw [if_neg hm]
      exact hu

theorem habitUnique_pair (e1 e2 : HabitEntry)
    (hne : e1.date ≠ e2.date ∨ e1.habitId ≠ e2.habitId ∨ e1.userId ≠ e2.userId) :
    habitUnique [e1, e2] := by
  intro u h d
  rw [List.countP_cons, List.countP_cons, List.countP_nil]
  by_cases h1 : hKey u h d e1
  · by_cases h2 : hKey u h d e2
    · exfalso
      simp only [hKey, Bool.and_eq_true, beq_iff_eq] at h1 h2
      obtain ⟨⟨hu1, hh1⟩, hd1⟩ := h1
      obtain ⟨⟨hu2, hh2⟩, hd2⟩ := h2
      rcases hne with hne | hne | hne
      · exact hne (hd1.trans hd2.symm)
      · exact hne (hh1.trans hh2.symm)
      · exact hne (hu1.trans hu2.symm)
    · simp [h1, h2]
  · by_cases h2 : hKey u h d e2 <;> simp [h1, h2]

/-- Witness for C5 at concrete singleton stores. -/
theorem C5_unique_invariant_preserved_witness :
    habitUnique (toggleHabit [⟨1, 1, 2, 0, true, 0⟩] 7 5 1 2 0).2 ∧
    prayerUnique (togglePrayer [⟨3, 1, "fajr", 0, true, 9⟩] 7 5 1 "fajr" 0).2 ∧
    habitUnique (cleanupStore (cleanupHabitEntries []
      [⟨1, 1, 2, 0, true, 0⟩, ⟨2, 1, 2, 60000, true, 4⟩])) ∧
    streakUnique (putMilestone [] 9 1 30 0 "" "").2 := by
  have h := C5_unique_invariant_preserved [⟨1, 1, 2, 0, true, 0⟩]
    [⟨3, 1, "fajr", 0, true, 9⟩] [⟨1, 1, 2, 0, true, 0⟩, ⟨2, 1, 2, 60000, true, 4⟩]
    [] [] 7 9 1 2 1 30 5 0 "fajr" 0 "" ""
  refine ⟨h.1 ?_, h.2.1 ?_, h.2.2.1 ?_, h.2.2.2 ?_⟩
  · intro u3 h3 d3; exact (List.countP_le_length _).trans (by simp)
  · intro u3 pt3 d3; exact (List.countP_le_length _).trans (by simp)
  · exact habitUnique_pair ⟨1, 1, 2, 0, true, 0⟩ ⟨2, 1, 2, 60000, true, 4⟩
      (Or.inl (by decide))
  · intro u3 m3; simp [List.countP_nil]

/-! ## Claim C9 -/

/-- C9: a milestone outside the allowed habit set {30, 50, 75, 100, 150,
200, 250, 300, 365} is rejected with the Invalid milestone response and the
store is returned unchanged; an allowed milestone is upserted so that
afterwards exactly one record exists for (userId, milestone), assuming the
unique index held before. -/
theorem C9_milestone_validation (s : List StreakRec) (fid u m : Nat)
    (ach : Int) (r n : String) :
    validMilestones = [30, 50, 75, 100, 150, 200, 250, 300, 365] ∧
    (m ∉ validMilestones →
      putMilestone s fid u m ach r n = (some "Invalid milestone", s)) ∧
    (m ∈ validMilestones → streakUnique s →
      (putMilestone s fid u m ach r n).2.countP (sKey u m) = 1 ∧
      streakUnique (putMilestone s fid u m ach r n).2) := by
  refine ⟨rfl, ?_, ?_⟩
  · intro hm; rw [putMilestone, if_neg hm]
  · intro hm hu
    rw [putMilestone, if_pos hm]
    exact ⟨countP_upsert_self fid u m ach r n s (hu u m),
      streakUnique_upsert s fid u m ach r n hu⟩

/-- Witness for C9: milestone 7 is rejected without touching the store,
milestone 30 on an empty store leaves exactly one record for the key. -/
theorem C9_milestone_validation_witness :
    putMilestone [] 9 1 7 0 "" "" = (some "Invalid milestone", []) ∧
    (putMilestone [] 9 1 30 0 "" "").2.countP (sKey 1 30) = 1 := by
  have h1 := C9_milestone_validation [] 9 1 7 0 "" ""
  have h2 := C9_milestone_validation [] 9 1 30 0 "" ""
  exact ⟨h1.2.1 (by decide),
    (h2.2.2 (by decide) (fun u m => by simp [List.countP_nil])).1⟩

/-! ## Claim C6 -/

theorem deleteManyByIds_noFail_ok :
    ∀ (ids : List Nat) (s : List HabitEntry),
      ∃ n s2, deleteManyByIds [] s ids = .ok (n, s2) := by
  intro ids
  induction ids with
  | nil => intro s; exact ⟨0, s, rfl⟩
  | cons i rest ih =>
    intro s
    simp only [deleteManyByIds]
    rw [if_neg (List.not_mem_nil i)]
    obtain ⟨n, s2, hr⟩ := ih (removeById HabitEntry.id s i)
    rw [hr]
    exact ⟨n + 1, s2, rfl⟩

theorem cleanupGroups_noFail_ok :
    ∀ (ks : List (Nat × Nat × Int)) (snap s : List HabitEntry) (g n : Nat),
      ∃ g2 n2 s2, cleanupGroups [] ks snap s g n = .ok (g2, n2, s2) := by
  intro ks
  induction ks with
  | nil => intro snap s g n; exact ⟨g, n, s, rfl⟩
  | cons k ks ih =>
    intro snap s g n
    simp only [cleanupGroups]
    by_cases hlen : (habitGroup snap k).length ≤ 1
    · rw [if_pos hlen]; exact ih snap s g n
    · rw [if_neg hlen]
      obtain ⟨dn, s2, hr⟩ := deleteManyByIds_noFail_ok (groupDeleteIds snap k) s
      rw [hr]
      exact ih snap s2 (g + 1) (n + dn)

/-- C6 counterexample: with two duplicate groups and the deletion of the
first group's stale record failing, the whole pass aborts with the error,
the second duplicate group is left with both of its records, and no summary
is produced - whereas the identical failure-free run reconciles both groups
and reports the summary (2 groups, 2 deletions). -/
theorem C6_cleanup_abort_counterexample :
    cleanupHabitEntries [1]
      [⟨1, 1, 1, 0, true, 0⟩, ⟨2, 1, 1, 60000, true, 1⟩,
       ⟨3, 1, 2, 0, true, 0⟩, ⟨4, 1, 2, 60000, true, 1⟩]
      = .error [⟨1, 1, 1, 0, true, 0⟩, ⟨2, 1, 1, 60000, true, 1⟩,
                ⟨3, 1, 2, 0, true, 0⟩, ⟨4, 1, 2, 60000, true, 1⟩] ∧
    (cleanupStore (cleanupHabitEntries [1]
      [⟨1, 1, 1, 0, true, 0⟩, ⟨2, 1, 1, 60000, true, 1⟩,
       ⟨3, 1, 2, 0, true, 0⟩, ⟨4, 1, 2, 60000, true, 1⟩])).countP
        (fun e => e.habitId == 2) = 2 ∧
    cleanupHabitEntries []
      [⟨1, 1, 1, 0, true, 0⟩, ⟨2, 1, 1, 60000, true, 1⟩,
       ⟨3, 1, 2, 0, true, 0⟩, ⟨4, 1, 2, 60000, true, 1⟩]
      = .ok (2, 2, [⟨2, 1, 1, 60000, true, 1⟩, ⟨4, 1, 2, 60000, true, 1⟩]) := by
  refine ⟨?_, ?_, ?_⟩ <;> rfl

/-- C6 amended: the cleanup pass is not per-group best-effort.  When every
deletion succeeds it runs to completion and reports a summary; but one
failed deletion makes the whole pass abort with that error immediately -
the result does not even depend on the groups still queued behind the
failing one, so those groups are never reconciled. -/
theorem C6_cleanup_abort_semantics :
    (∀ entries, ∃ g n s2, cleanupHabitEntries [] entries = .ok (g, n, s2)) ∧
    (∀ (F : List Nat) (k : Nat × Nat × Int) (ks ks2 : List (Nat × Nat × Int))
      (snap s s2 : List HabitEntry) (g n : Nat),
      ¬(habitGroup snap k).length ≤ 1 →
      deleteManyByIds F s (groupDeleteIds snap k) = .error s2 →
      cleanupGroups F (k :: ks) snap s g n = .error s2 ∧
      cleanupGroups F (k :: ks2) snap s g n = .error s2) := by
  constructor
  · intro entries
    exact cleanupGroups_noFail_ok (dedupKeysFirst (entries.map habitCleanKey))
      entries entries 0 0
  · intro F k ks ks2 snap s s2 g n hlen hr
    constructor <;>
      · simp only [cleanupGroups]
        rw [if_neg hlen, hr]

/-- Witness for the amended C6 at concrete inputs. -/
theorem C6_cleanup_abort_semantics_witness :
    (∃ g n s2, cleanupHabitEntries []
      [⟨1, 1, 1, 0, true, 0⟩, ⟨2, 1, 1, 60000, true, 1⟩] = .ok (g, n, s2)) ∧
    cleanupGroups [1] [(1, 1, 0), (9, 9, 9)]
      [⟨1, 1, 1, 0, true, 0⟩, ⟨2, 1, 1, 60000, true, 1⟩]
      [⟨1, 1, 1, 0, true, 0⟩, ⟨2, 1, 1, 60000, true, 1⟩] 0 0
      = .error [⟨1, 1, 1, 0, true, 0⟩, ⟨2, 1, 1, 60000, true, 1⟩] := by
  constructor
  · exact C6_cleanup_abort_semantics.1
      [⟨1, 1, 1, 0, true, 0⟩, ⟨2, 1, 1, 60000, true, 1⟩]
  · exact (C6_cleanup_abort_semantics.2 [1] (1, 1, 0) [(9, 9, 9)] []
      [⟨1, 1, 1, 0, true, 0⟩, ⟨2, 1, 1, 60000, true, 1⟩]
      [⟨1, 1, 1, 0, true, 0⟩, ⟨2, 1, 1, 60000, true, 1⟩]
      [⟨1, 1, 1, 0, true, 0⟩, ⟨2, 1, 1, 60000, true, 1⟩] 0 0
      (by decide) (by rfl)).1

/-! ## Claim C3 -/

theorem streakGo_broken (l : List Bool) :
    ∀ tmp lng cur, (streakGo l tmp lng true cur).1 = cur := by
  induction l with
  | nil => intros; rfl
  | cons b rest ih =>
    intro tmp lng cur
    cases b <;> simp [streakGo, ih]

theorem streakGo_current (l : List Bool) :
    ∀ tmp lng cur, (streakGo l tmp lng false cur).1 = cur + (l.takeWhile id).length := by
  induction l with
  | nil => intros; simp [streakGo]
  | cons b rest ih =>
    intro tmp lng cur
    cases b
    · have h1 : streakGo (false :: rest) tmp lng false cur
          = streakGo rest 0 (max lng tmp) true cur := rfl
      rw [h1, streakGo_broken rest 0 (max lng tmp) cur]
      simp [List.takeWhile_cons]
    · have h1 : streakGo (true :: rest) tmp lng false cur
          = streakGo rest (tmp + 1) lng false (cur + 1) := rfl
      rw [h1, ih (tmp + 1) lng (cur + 1)]
      simp [List.takeWhile_cons]
      omega

theorem streakGo_longest (l : List Bool) :
    ∀ tmp lng broken cur, (streakGo l tmp lng broken cur).2 = max lng (mrGo l tmp) := by
  induction l with
  | nil => intros; simp [streakGo, mrGo]
  | cons b rest ih =>
    intro tmp lng broken cur
    cases b
    · simp only [streakGo, mrGo, Bool.false_eq_true, if_neg, ite_false]
      rw [ih 0 (max lng tmp) true cur, Nat.max_assoc]
    · simp only [streakGo, mrGo, ite_true]
      exact ih (tmp + 1) lng broken (if broken then cur else cur + 1)

theorem le_mrGo (l : List Bool) : ∀ tmp, tmp ≤ mrGo l tmp := by
  induction l with
  | nil => intro tmp; simp [mrGo]
  | cons b rest ih =>
    intro tmp
    cases b
    · simp only [mrGo]; exact le_max_left tmp _
    · simp only [mrGo]; exact le_trans (Nat.le_succ tmp) (ih (tmp + 1))

theorem mrGo_le (l : List Bool) : ∀ tmp, mrGo l tmp ≤ tmp + l.length := by
  induction l with
  | nil => intro tmp; simp [mrGo]
  | cons b rest ih =>
    intro tmp
    cases b
    · simp only [mrGo, List.length_cons]
      apply max_le
      · omega
      · exact le_trans (ih 0) (by omega)
    · simp only [mrGo, List.length_cons]
      exact le_trans (ih (tmp + 1)) (by omega)

theorem mrGo_hasRun (l : List Bool) : ∀ tmp, ∃ i,
    ((List.replicate tmp true ++ l).drop i).take (mrGo l tmp)
      = List.replicate (mrGo l tmp) true := by
  induction l with
  | nil =>
    intro tmp
    refine ⟨0, ?_⟩
    simp [mrGo, List.take_replicate]
  | cons b rest ih =>
    intro tmp
    cases b
    · simp only [mrGo]
      by_cases hc : mrGo rest 0 ≤ tmp
      · rw [max_eq_left hc]
        refine ⟨0, ?_⟩
        rw [List.drop_zero]
        have := List.take_left (List.replicate tmp true) (false :: rest)
        rwa [List.length_replicate] at this
      · rw [max_eq_right (le_of_not_le hc)]
        obtain ⟨i, hi⟩ := ih 0
        simp only [List.replicate, List.nil_append] at hi
        refine ⟨tmp + 1 + i, ?_⟩
        have hsplit : List.replicate tmp true ++ false :: rest
            = (List.replicate tmp true ++ [false]) ++ rest := by simp
        have hlen : (List.replicate tmp true ++ [false]).length = tmp + 1 := by simp
        have hdrop : (List.replicate tmp true ++ false :: rest).drop (tmp + 1 + i)
            = rest.drop i := by
          rw [hsplit, ← List.drop_drop i (tmp + 1), List.drop_left' hlen]
        rw [hdrop]
        exact hi
    · simp only [mrGo]
      obtain ⟨i, hi⟩ := ih (tmp + 1)
      refine ⟨i, ?_⟩
      have hrw : List.replicate (tmp + 1) true ++ rest
          = List.replicate tmp true ++ true :: rest := by
        rw [List.replicate_succ']
        simp
      rw [← hrw]
      exact hi

theorem take_replicate_prefix_le (l : List Bool) :
    ∀ tmp m, l.take m = List.replicate m true → tmp + m ≤ mrGo l tmp := by
  induction l with
  | nil =>
    intro tmp m h
    have hm : m = 0 := by
      have := congrArg List.length h
      simpa using this.symm
    subst hm
    simp [mrGo]
  | cons b rest ih =>
    intro tmp m h
    cases m with
    | zero => simpa [mrGo] using le_mrGo (b :: rest) tmp
    | succ k =>
      rw [List.take_succ_cons, List.replicate_succ] at h
      injection h with hb ht
      subst hb
      simp only [mrGo]
      have := ih (tmp + 1) k ht
      omega

theorem hasRun_le_mrGo (l : List Bool) :
    ∀ tmp i n, (l.drop i).take n = List.replicate n true → n ≤ mrGo l tmp := by
  induction l with
  | nil =>
    intro tmp i n h
    rw [List.drop_nil, List.take_nil] at h
    have hn : n = 0 := by
      have := congrArg List.length h
      simpa using this.symm
    subst hn
    exact Nat.zero_le _
  | cons b rest ih =>
    intro tmp i n h
    cases i with
    | zero =>
      rw [List.drop_zero] at h
      have := take_replicate_prefix_le (b :: rest) tmp n h
      omega
    | succ j =>
      rw [List.drop_succ_cons] at h
      cases b
      · simp only [mrGo]
        exact le_trans (ih 0 j n h) (le_max_right tmp _)
      · simp only [mrGo]
        exact ih (tmp + 1) j n h

theorem takeWhile_mem_true (l : List Bool) :
    ∀ i, i < (l.takeWhile id).length → l[i]? = some true := by
  induction l with
  | nil => intro i h; simp [List.takeWhile] at h
  | cons b rest ih =>
    intro i h
    cases b
    · simp [List.takeWhile_cons] at h
    · rw [List.takeWhile_cons] at h
      simp only [id, if_true, List.length_cons] at h
      cases i with
      | zero => simp
      | succ j =>
        rw [List.getElem?_cons_succ]
        exact ih j (by omega)

theorem takeWhile_boundary_false (l : List Bool) :
    (l.takeWhile id).length < l.length → l[(l.takeWhile id).length]? = some false := by
  induction l with
  | nil => intro h; simp at h
  | cons b rest ih =>
    intro h
    cases b
    · simp [List.takeWhile_cons]
    · rw [List.takeWhile_cons]
      simp only [id, if_true, List.length_cons]
      rw [List.getElem?_cons_succ]
      apply ih
      rw [List.takeWhile_cons] at h
      simp only [id, if_true, List.length_cons] at h
      omega

/-- C3: the streak endpoint scans a window of exactly 400 days (index 0 =
today, walking backward); currentStreak counts the consecutive success days
from today up to the first failure and is frozen there (the day right after
the run, when inside the window, is a failure day); longestStreak is
exactly the length of the maximal run of consecutive success days anywhere
in the window (it is attained, and no run exceeds it); and when all 400
scanned days succeed the result is exactly (400, 400), capping longer true
streaks at 400. -/
theorem C3_streak_window_current_longest (daySucc : Nat → Bool) :
    (streakWindow daySucc).length = 400 ∧
    (∀ i, i < (streaks daySucc).1 → daySucc i = true) ∧
    ((streaks daySucc).1 < 400 → daySucc (streaks daySucc).1 = false) ∧
    (streaks daySucc).1 ≤ 400 ∧
    HasTrueRun (streakWindow daySucc) (streaks daySucc).2 ∧
    (∀ n, HasTrueRun (streakWindow daySucc) n → n ≤ (streaks daySucc).2) ∧
    ((∀ i, i < 400 → daySucc i = true) → streaks daySucc = (400, 400)) := by
  have hlen : (streakWindow daySucc).length = 400 := by simp [streakWindow]
  have hcur : (streaks daySucc).1 = ((streakWindow daySucc).takeWhile id).length := by
    rw [streaks, streaksOf, streakGo_current (streakWindow daySucc) 0 0 0]
    simp
  have hlng : (streaks daySucc).2 = mrGo (streakWindow daySucc) 0 := by
    rw [streaks, streaksOf, streakGo_longest (streakWindow daySucc) 0 0 false 0]
    simp
  have hget : ∀ i, i < 400 → (streakWindow daySucc)[i]? = some (daySucc i) := by
    intro i hi
    rw [streakWindow, List.getElem?_map, List.getElem?_range hi]
    rfl
  have hle400 : (streaks daySucc).1 ≤ 400 := by
    rw [hcur, ← hlen]
    exact List.Sublist.length_le (List.takeWhile_sublist id)
  have hbd : (streaks daySucc).1 < 400 → daySucc (streaks daySucc).1 = false := by
    intro hcl
    have h1 := takeWhile_boundary_false (streakWindow daySucc)
      (by rw [← hcur, hlen]; exact hcl)
    rw [← hcur] at h1
    have h2 := hget (streaks daySucc).1 hcl
    rw [h1] at h2
    injection h2 with h3
    exact h3.symm
  have hcap : (∀ i, i < 400 → daySucc i = true) → streaks daySucc = (400, 400) := by
    intro hall
    have h1 : (streaks daySucc).1 = 400 := by
      rcases lt_or_eq_of_le hle400 with hlt | heq
      · exfalso
        have h2 := hall _ hlt
        rw [hbd hlt] at h2
        exact Bool.false_ne_true h2
      · exact heq
    have hwin : streakWindow daySucc = List.replicate 400 true := by
      rw [streakWindow]
      rw [List.map_congr_left (fun x hx => hall x (List.mem_range.mp hx))]
      simp
    have h2 : (streaks daySucc).2 = 400 := by
      apply le_antisymm
      · rw [hlng]
        have h3 := mrGo_le (streakWindow daySucc) 0
        rw [hlen] at h3
        simpa using h3
      · rw [hlng]
        apply hasRun_le_mrGo (streakWindow daySucc) 0 0 400
        rw [List.drop_zero, hwin, List.take_replicate]
        simp
    have hp : streaks daySucc = ((streaks daySucc).1, (streaks daySucc).2) := rfl
    rw [hp, h1, h2]
  refine ⟨hlen, ?_, hbd, hle400, ?_, ?_, hcap⟩
  · intro i hi
    have h1 := takeWhile_mem_true (streakWindow daySucc) i (by rw [← hcur]; exact hi)
    have h2 := hget i (lt_of_lt_of_le hi hle400)
    rw [h1] at h2
    injection h2 with h3
    exact h3.symm
  · rw [hlng]
    have h1 := mrGo_hasRun (streakWindow daySucc) 0
    simpa [HasTrueRun] using h1
  · intro n hn
    rw [hlng]
    obtain ⟨i, hi⟩ := hn
    exact hasRun_le_mrGo (streakWindow daySucc) 0 i n hi

set_option maxRecDepth 100000 in
/-- Witness for C3: with success on exactly days 0, 1, 2 the scan reports
day 1 as inside the current streak and the day at index current as a
failure day; with success everywhere the result caps at (400, 400). -/
theorem C3_streak_window_current_longest_witness :
    (fun i : Nat => decide (i < 3)) 1 = true ∧
    (fun i : Nat => decide (i < 3)) (streaks (fun i : Nat => decide (i < 3))).1 = false ∧
    streaks (fun _ : Nat => true) = (400, 400) := by
  have h1 := C3_streak_window_current_longest (fun i => decide (i < 3))
  have h2 := C3_streak_window_current_longest (fun _ : Nat => true)
  refine ⟨?_, ?_, ?_⟩
  · exact h1.2.1 1 (by decide)
  · exact h1.2.2.1 (by decide)
  · exact h2.2.2.2.2.2.2 (fun i _ => rfl)

/-! ## Claim C4 -/

/-- C4: every day reported by the habit daily endpoint has positive total
(the habit count), percentage Math.round(completedCount / total * 100), and
is a success day exactly when that rounded percentage is at least 75; every
day of the prayer daily endpoint has total 5, the same rounding formula,
and is a success day exactly when all five prayers are completed.  The
rounded values 75 (from 3/4) and 50 (from 2/4) appear as stated. -/
theorem C4_daily_percentage_and_success (off : Int) (habits : List Nat)
    (entries : List HabitEntry) (pentries : List PrayerEntry) (startD endD : Int) :
    (∀ st ∈ habitDailyStats off habits entries startD endD,
      0 < st.total ∧ st.total = habits.length ∧
      st.percentage = jsRound ((st.completedCount : ℚ) / (st.total : ℚ) * 100) ∧
      (st.isSuccessDay = true ↔ 75 ≤ st.percentage)) ∧
    (∀ st ∈ prayerDailyStats pentries startD endD,
      st.total = 5 ∧
      st.percentage = jsRound ((st.completedCount : ℚ) / 5 * 100) ∧
      (st.isSuccessDay = true ↔ st.completedCount = 5)) ∧
    jsRound ((3 : ℚ) / 4 * 100) = 75 ∧
    jsRound ((2 : ℚ) / 4 * 100) = 50 := by
  refine ⟨?_, ?_, ?_, ?_⟩
  · intro st hst
    rw [habitDailyStats] at hst
    by_cases h0 : habits.length = 0
    · rw [if_pos h0] at hst
      simp at hst
    · rw [if_neg h0] at hst
      obtain ⟨d, _, rfl⟩ := List.mem_map.mp hst
      exact ⟨Nat.pos_of_ne_zero h0, rfl, rfl, decide_eq_true_iff⟩
  · intro st hst
    rw [prayerDailyStats] at hst
    obtain ⟨d, _, rfl⟩ := List.mem_map.mp hst
    exact ⟨rfl, rfl, decide_eq_true_iff⟩
  · norm_num [jsRound]
  · norm_num [jsRound]

/-- Witness for C4: three completions out of four habits make a success
day, four prayed slots out of five do not. -/
theorem C4_daily_percentage_and_success_witness :
    (habitDayStat 0 [1, 2, 3, 4]
      [⟨1, 1, 1, 0, true, 0⟩, ⟨2, 1, 2, 0, true, 0⟩, ⟨3, 1, 3, 0, true, 0⟩]
      0).isSuccessDay = true ∧
    (prayerDayStat [⟨1, 1, "fajr", 0, true, 0⟩, ⟨2, 1, "zuhr", 0, true, 0⟩,
      ⟨3, 1, "asr", 0, true, 0⟩, ⟨4, 1, "maghrib", 0, true, 0⟩]
      0).isSuccessDay = false := by
  have h := C4_daily_percentage_and_success 0 [1, 2, 3, 4]
    [⟨1, 1, 1, 0, true, 0⟩, ⟨2, 1, 2, 0, true, 0⟩, ⟨3, 1, 3, 0, true, 0⟩]
    [⟨1, 1, "fajr", 0, true, 0⟩, ⟨2, 1, "zuhr", 0, true, 0⟩,
      ⟨3, 1, "asr", 0, true, 0⟩, ⟨4, 1, "maghrib", 0, true, 0⟩] 0 0
  constructor
  · have hm : habitDayStat 0 [1, 2, 3, 4]
        [⟨1, 1, 1, 0, true, 0⟩, ⟨2, 1, 2, 0, true, 0⟩, ⟨3, 1, 3, 0, true, 0⟩] 0
        ∈ habitDailyStats 0 [1, 2, 3, 4]
          [⟨1, 1, 1, 0, true, 0⟩, ⟨2, 1, 2, 0, true, 0⟩, ⟨3, 1, 3, 0, true, 0⟩] 0 0 := by
      rw [habitDailyStats, if_neg (by decide)]
      exact List.mem_map.mpr ⟨0, by decide, rfl⟩
    have hrec := h.1 _ hm
    refine hrec.2.2.2.mpr ?_
    rw [hrec.2.2.1]
    rw [show (habitDayStat 0 [1, 2, 3, 4]
      [⟨1, 1, 1, 0, true, 0⟩, ⟨2, 1, 2, 0, true, 0⟩, ⟨3, 1, 3, 0, true, 0⟩]
      0).completedCount = 3 from by decide]
    rw [show (habitDayStat 0 [1, 2, 3, 4]
      [⟨1, 1, 1, 0, true, 0⟩, ⟨2, 1, 2, 0, true, 0⟩, ⟨3, 1, 3, 0, true, 0⟩]
      0).total = 4 from by decide]
    norm_num [jsRound]
  · have hm : prayerDayStat [⟨1, 1, "fajr", 0, true, 0⟩, ⟨2, 1, "zuhr", 0, true, 0⟩,
        ⟨3, 1, "asr", 0, true, 0⟩, ⟨4, 1, "maghrib", 0, true, 0⟩] 0
        ∈ prayerDailyStats [⟨1, 1, "fajr", 0, true, 0⟩, ⟨2, 1, "zuhr", 0, true, 0⟩,
          ⟨3, 1, "asr", 0, true, 0⟩, ⟨4, 1, "maghrib", 0, true, 0⟩] 0 0 := by
      rw [prayerDailyStats]
      exact List.mem_map.mpr ⟨0, by decide, rfl⟩
    have hi := (h.2.1 _ hm).2.2
    rw [Bool.eq_false_iff]
    intro hc
    exact absurd (hi.mp hc) (by decide)

/-! ## Claim C7 -/

/-- C7: a month starting after today is answered as all-zero; a month
containing today is clipped so that totalDays counts exactly the days from
the month start through today inclusive; whenever the month has started,
totalDays is positive and percentage is the rounded success ratio; and a
zero totalDays forces percentage 0. -/
theorem C7_monthly_future_and_clipping (daySucc : Int → Bool)
    (startD endD today : Int) (hse : startD ≤ endD) :
    (startD > today → monthlyStat daySucc startD endD today = ⟨0, 0, 0⟩) ∧
    (startD ≤ today → today ≤ endD →
      (monthlyStat daySucc startD endD today).totalDays = (today - startD + 1).toNat) ∧
    (startD ≤ today →
      0 < (monthlyStat daySucc startD endD today).totalDays ∧
      (monthlyStat daySucc startD endD today).percentage =
        jsRound (((monthlyStat daySucc startD endD today).successDays : ℚ)
          / ((monthlyStat daySucc startD endD today).totalDays : ℚ) * 100)) ∧
    ((monthlyStat daySucc startD endD today).totalDays = 0 →
      (monthlyStat daySucc startD endD today).percentage = 0) := by
  have hfut : startD > today → monthlyStat daySucc startD endD today = ⟨0, 0, 0⟩ := by
    intro h
    rw [monthlyStat, if_pos h]
  have hlen : ∀ s e : Int, (daysBetween s e).length = (e - s + 1).toNat := by
    intro s e
    rw [daysBetween, List.length_map, List.length_range]
  have heff : startD ≤ today → startD ≤ (if endD > today then today else endD) := by
    intro h1
    by_cases hc : endD > today
    · rw [if_pos hc]; exact h1
    · rw [if_neg hc]; exact hse
  have hstarted : startD ≤ today →
      0 < (monthlyStat daySucc startD endD today).totalDays ∧
      (monthlyStat daySucc startD endD today).percentage =
        jsRound (((monthlyStat daySucc startD endD today).successDays : ℚ)
          / ((monthlyStat daySucc startD endD today).totalDays : ℚ) * 100) := by
    intro h1
    rw [monthlyStat, if_neg (not_lt.mpr h1)]
    simp only
    rw [hlen]
    have hpos : 0 < ((if endD > today then today else endD) - startD + 1).toNat := by
      have := heff h1
      omega
    refine ⟨hpos, ?_⟩
    rw [if_pos hpos]
  refine ⟨hfut, ?_, hstarted, ?_⟩
  · intro h1 h2
    rw [monthlyStat, if_neg (not_lt.mpr h1)]
    simp only
    rw [hlen]
    by_cases hc : endD > today
    · rw [if_pos hc]
    · rw [if_neg hc, le_antisymm (not_lt.mp hc) h2]
  · intro h0
    by_cases hf : startD > today
    · rw [hfut hf]
    · exfalso
      have := (hstarted (not_lt.mp hf)).1
      omega

/-- Witness for C7: a month starting on day 3 with today = 2 is all-zero;
a month spanning days 0..30 with today = 2 counts exactly 3 days. -/
theorem C7_monthly_future_and_clipping_witness :
    monthlyStat (fun d => decide (d = 0)) 3 30 2 = ⟨0, 0, 0⟩ ∧
    (monthlyStat (fun d => decide (d = 0)) 0 30 2).totalDays = 3 := by
  have h1 := C7_monthly_future_and_clipping (fun d => decide (d = 0)) 3 30 2 (by decide)
  have h2 := C7_monthly_future_and_clipping (fun d => decide (d = 0)) 0 30 2 (by decide)
  constructor
  · exact h1.1 (by decide)
  · rw [h2.2.1 (by decide) (by decide)]
    decide

/-! ## Claim C10 -/

theorem jsRound_ratio_le_100 (c t : Nat) (hct : c ≤ t) (ht : 0 < t) :
    jsRound ((c : ℚ) / (t : ℚ) * 100) ≤ 100 := by
  rw [jsRound]
  have htq : (0 : ℚ) < (t : ℚ) := by exact_mod_cast ht
  have h1 : (c : ℚ) / (t : ℚ) ≤ 1 := by
    rw [div_le_one htq]
    exact_mod_cast hct
  have h3 : ⌊(c : ℚ) / (t : ℚ) * 100 + 1 / 2⌋ < 101 := by
    rw [Int.floor_lt]
    push_cast
    nlinarith
  omega

theorem prayersOnDay_le_five (pentries : List PrayerEntry)
    (henum : ∀ p ∈ pentries, p.prayerType ∈ PRAYER_TYPES) :
    ∀ d, (prayersOnDay pentries d).length ≤ 5 := by
  intro d
  have hnd : (prayersOnDay pentries d).Nodup := List.nodup_dedup _
  have hsub : ∀ x ∈ prayersOnDay pentries d, x ∈ PRAYER_TYPES := by
    intro x hx
    rw [prayersOnDay] at hx
    obtain ⟨p, hp, rfl⟩ := List.mem_map.mp (List.mem_dedup.mp hx)
    exact henum p (List.mem_filter.mp hp).1
  calc (prayersOnDay pentries d).length
      = (prayersOnDay pentries d).toFinset.card :=
        (List.toFinset_card_of_nodup hnd).symm
    _ ≤ PRAYER_TYPES.toFinset.card :=
        Finset.card_le_card
          (fun x hx => List.mem_toFinset.mpr (hsub x (List.mem_toFinset.mp hx)))
    _ = 5 := rfl

/-- C10 counterexample: the active habit set is just habit 1 (total = 1),
but the store holds an entry of a second, inactive habit on the same day.
The per-day distinct-habit counter used by the monthly and streak endpoints
counts 2 trackables, exceeding the total of 1, and the internal success
test fires from the inflated count. -/
theorem C10_count_exceeds_total_counterexample :
    (habitDistinctOnDay 0 [⟨1, 1, 1, 0, true, 0⟩, ⟨2, 1, 2, 0, true, 0⟩] 0).length = 2 ∧
    ([1] : List Nat).length = 1 ∧
    habitDaySuccess 0 [⟨1, 1, 1, 0, true, 0⟩, ⟨2, 1, 2, 0, true, 0⟩] 1 0 = true := by
  refine ⟨?_, ?_, ?_⟩ <;> rfl

/-- C10 amended: the aggregations are duplicate-tolerant - every counter
goes through a Map or Set, so a second record for an already-counted
(trackableId, day) pair never changes any count - and the dailyStats
counters are bounded by the trackable set by construction (completedCount
counts over the active set, so completedCount <= total and the reported
percentage is at most 100; prayers are bounded by the 5 schema-enumerated
slots).  The distinct-id counter of monthlyStats and the streak scan is
bounded by the total only under the extra assumption that every stored
record's trackableId belongs to the trackable set - records of inactive
habits break that bound (see the counterexample). -/
theorem C10_duplicate_tolerance (off : Int) (habits : List Nat)
    (entries : List HabitEntry) (pentries : List PrayerEntry)
    (d startD endD : Int) (e eNew : HabitEntry) :
    (habitCompletedCount off habits entries d ≤ habits.length) ∧
    (∀ st ∈ habitDailyStats off habits entries startD endD,
      st.completedCount ≤ st.total ∧ st.percentage ≤ 100) ∧
    (e ∈ entries → eNew.habitId = e.habitId →
      habitsNormalizeDate off eNew.date = habitsNormalizeDate off e.date →
      (∀ d2, habitCompletedCount off habits (eNew :: entries) d2
        = habitCompletedCount off habits entries d2) ∧
      (∀ d2, (habitDistinctOnDay off (eNew :: entries) d2).length
        = (habitDistinctOnDay off entries d2).length)) ∧
    ((∀ p ∈ pentries, p.prayerType ∈ PRAYER_TYPES) →
      (prayersOnDay pentries d).length ≤ 5 ∧
      ∀ st ∈ prayerDailyStats pentries startD endD,
        st.completedCount ≤ st.total ∧ st.percentage ≤ 100) ∧
    (habits.Nodup → (∀ e2 ∈ entries, e2.habitId ∈ habits) →
      (habitDistinctOnDay off entries d).length ≤ habits.length) := by
  refine ⟨List.countP_le_length _, ?_, ?_, ?_, ?_⟩
  · intro st hst
    rw [habitDailyStats] at hst
    by_cases h0 : habits.length = 0
    · rw [if_pos h0] at hst
      simp at hst
    · rw [if_neg h0] at hst
      obtain ⟨d2, _, rfl⟩ := List.mem_map.mp hst
      refine ⟨List.countP_le_length _, ?_⟩
      exact jsRound_ratio_le_100 _ _ (List.countP_le_length _) (Nat.pos_of_ne_zero h0)
  · intro hmem hid hdt
    constructor
    · intro d2
      rw [habitCompletedCount, habitCompletedCount]
      apply List.countP_congr
      intro hb _
      rw [List.any_cons]
      by_cases hq : (eNew.habitId == hb && (habitsNormalizeDate off eNew.date == d2)) = true
      · have he : (e.habitId == hb && (habitsNormalizeDate off e.date == d2)) = true := by
          rw [← hid, ← hdt]
          exact hq
        have hany : entries.any
            (fun e2 => e2.habitId == hb && (habitsNormalizeDate off e2.date == d2)) = true :=
          List.any_eq_true.mpr ⟨e, hmem, he⟩
        rw [hq, hany]
        rfl
      · rw [Bool.not_eq_true] at hq
        rw [hq]
        rw [Bool.false_or]
    · intro d2
      rw [habitDistinctOnDay, habitDistinctOnDay,
        ← List.card_toFinset, ← List.card_toFinset]
      congr 1
      by_cases hq : (habitsNormalizeDate off eNew.date == d2) = true
      · have he : (habitsNormalizeDate off e.date == d2) = true := by
          rw [← hdt]
          exact hq
        rw [List.filter_cons, if_pos hq, List.map_cons, List.toFinset_cons]
        apply Finset.insert_eq_self.mpr
        rw [List.mem_toFinset, hid]
        exact List.mem_map.mpr ⟨e, List.mem_filter.mpr ⟨hmem, he⟩, rfl⟩
      · rw [List.filter_cons, if_neg hq]
  · intro henum
    refine ⟨prayersOnDay_le_five pentries henum d, ?_⟩
    intro st hst
    rw [prayerDailyStats] at hst
    obtain ⟨d2, _, rfl⟩ := List.mem_map.mp hst
    refine ⟨prayersOnDay_le_five pentries henum _, ?_⟩
    exact jsRound_ratio_le_100 _ 5 (prayersOnDay_le_five pentries henum _) (by omega)
  · intro hnodup hsub
    have hnd : (habitDistinctOnDay off entries d).Nodup := List.nodup_dedup _
    have hsub2 : ∀ x ∈ habitDistinctOnDay off entries d, x ∈ habits := by
      intro x hx
      rw [habitDistinctOnDay] at hx
      obtain ⟨e2, he2, rfl⟩ := List.mem_map.mp (List.mem_dedup.mp hx)
      exact hsub e2 (List.mem_filter.mp he2).1
    calc (habitDistinctOnDay off entries d).length
        = (habitDistinctOnDay off entries d).toFinset.card :=
          (List.toFinset_card_of_nodup hnd).symm
      _ ≤ habits.toFinset.card :=
          Finset.card_le_card
            (fun x hx => List.mem_toFinset.mpr (hsub2 x (List.mem_toFinset.mp hx)))
      _ = habits.length := List.toFinset_card_of_nodup hnodup

/-- Witness for the amended C10 at concrete stores: an exact duplicate does
not change the daily count, at most 5 distinct prayer slots are counted,
and the distinct-habit counter is bounded when every entry's habit belongs
to the set. -/
theorem C10_duplicate_tolerance_witness :
    habitCompletedCount 0 [1, 2] [⟨1, 1, 1, 0, true, 0⟩, ⟨3, 1, 1, 0, true, 2⟩] 0
      = habitCompletedCount 0 [1, 2] [⟨3, 1, 1, 0, true, 2⟩] 0 ∧
    (prayersOnDay [⟨1, 1, "fajr", 0, true, 0⟩, ⟨2, 1, "fajr", 60000, true, 1⟩] 0).length ≤ 5 ∧
    (habitDistinctOnDay 0 [⟨3, 1, 1, 0, true, 2⟩] 0).length ≤ ([1, 2] : List Nat).length := by
  have h := C10_duplicate_tolerance 0 [1, 2] [⟨3, 1, 1, 0, true, 2⟩]
    [⟨1, 1, "fajr", 0, true, 0⟩, ⟨2, 1, "fajr", 60000, true, 1⟩] 0 0 0
    ⟨3, 1, 1, 0, true, 2⟩ ⟨1, 1, 1, 0, true, 0⟩
  refine ⟨?_, ?_, ?_⟩
  · exact (h.2.2.1 (by decide) rfl rfl).1 0
  · exact (h.2.2.2.1 (by decide)).1
  · exact h.2.2.2.2 (by decide) (by decide)
